import Mathlib

/-!
Verification development for the `zope.password` password-manager library.

The Python modules `zope/password/password.py` and `zope/password/legacy.py`
are shallowly embedded below.  Byte strings (`bytes`) are modelled as
`List Nat` of values `< 256`; text strings (`str`) as `List Nat` of Unicode
code points.  A value that a Python entry point accepts as either `str` or
`bytes` is modelled by the sum type `Data`.  Operations that can raise a
Python exception (`binascii.Error`, `ValueError`, `TypeError`) return
`Option` results, `none` standing for the raised exception.

The cryptographic primitives used by the library (`hashlib.md5`,
`hashlib.sha1`, `bcrypt.kdf`, `bcrypt.hashpw`, `bcrypt.checkpw`) are external
libraries, not code of this repository; they are taken as function
parameters, constrained only by their documented digest lengths.  The
deterministic byte-level codecs (`base64`, `binascii.a2b_hex`, `%x`
formatting, `int(_, 16)` parsing, `bytes.split`, `bytes.find`) are
implemented concretely.
-/

/-- A list of `Nat` is a byte string when every entry is `< 256`. -/
def byteList (l : List Nat) : Prop := ∀ b ∈ l, b < 256

instance byteListDecidable (l : List Nat) : Decidable (byteList l) :=
  List.decidableBAll _ l

/-- UTF-8 encoding of one Unicode code point (RFC 3629). -/
def utf8Char (c : Nat) : List Nat :=
  if c < 0x80 then [c]
  else if c < 0x800 then [0xC0 + c / 0x40, 0x80 + c % 0x40]
  else if c < 0x10000 then
    [0xE0 + c / 0x1000, 0x80 + c / 0x40 % 0x40, 0x80 + c % 0x40]
  else
    [0xF0 + c / 0x40000, 0x80 + c / 0x1000 % 0x40, 0x80 + c / 0x40 % 0x40,
     0x80 + c % 0x40]

/-- UTF-8 encoding of a text string (list of code points). -/
def utf8Encode (s : List Nat) : List Nat := (s.map utf8Char).flatten

/-- A Python value that may be passed as text (`str`, code points) or as a
byte string (`bytes`). -/
inductive Data where
  | txt : List Nat → Data
  | bin : List Nat → Data
deriving DecidableEq

/-- `password.py`'s `_encoder`: return `bytes` unchanged, UTF-8 encode text. -/
def pyEncode : Data → List Nat
  | .bin b => b
  | .txt s => utf8Encode s

/-- Python 3 equality between a `str`-or-`bytes` value and a `bytes` value:
`str == bytes` is `False`, `bytes == bytes` compares contents. -/
def pyEqData (d : Data) (b : List Nat) : Bool :=
  match d with
  | .bin x => x == b
  | .txt _ => false

/-- Salt resolution shared by the salted managers: `salt=None` draws fresh
random bytes (modelled by the explicit `rand` parameter), a supplied text
salt is UTF-8 encoded, a supplied byte salt is used as is. -/
def resolveSalt (rand : List Nat) : Option Data → List Nat
  | none => rand
  | some s => pyEncode s

/-- The standard base64 alphabet (RFC 4648 §4) as a map from 6-bit values to
ASCII codes. -/
def b64AlphaStd (v : Nat) : Nat :=
  if v < 26 then 65 + v
  else if v < 52 then 71 + v
  else if v < 62 then v - 4
  else if v = 62 then 43
  else 47

/-- The URL-safe base64 alphabet (RFC 4648 §5): `-` and `_` replace `+`, `/`. -/
def b64AlphaUrl (v : Nat) : Nat :=
  if v = 62 then 45 else if v = 63 then 95 else b64AlphaStd v

/-- Inverse of the standard base64 alphabet. -/
def b64InvStd (c : Nat) : Option Nat :=
  if 65 ≤ c ∧ c ≤ 90 then some (c - 65)
  else if 97 ≤ c ∧ c ≤ 122 then some (c - 71)
  else if 48 ≤ c ∧ c ≤ 57 then some (c + 4)
  else if c = 43 then some 62
  else if c = 47 then some 63
  else none

/-- Inverse of the URL-safe base64 alphabet. -/
def b64InvUrl (c : Nat) : Option Nat :=
  if 65 ≤ c ∧ c ≤ 90 then some (c - 65)
  else if 97 ≤ c ∧ c ≤ 122 then some (c - 71)
  else if 48 ≤ c ∧ c ≤ 57 then some (c + 4)
  else if c = 45 then some 62
  else if c = 95 then some 63
  else none

/-- Base64 encoding over a given alphabet (`base64.standard_b64encode` /
`base64.urlsafe_b64encode`): 3 input bytes become 4 output characters, a
final 1- or 2-byte group is padded with `=` (ASCII 61). -/
def b64EncodeWith (alpha : Nat → Nat) : List Nat → List Nat
  | b1 :: b2 :: b3 :: rest =>
      alpha (b1 / 4) :: alpha (b1 % 4 * 16 + b2 / 16) ::
        alpha (b2 % 16 * 4 + b3 / 64) :: alpha (b3 % 64) ::
        b64EncodeWith alpha rest
  | [b1, b2] => [alpha (b1 / 4), alpha (b1 % 4 * 16 + b2 / 16),
                 alpha (b2 % 16 * 4), 61]
  | [b1] => [alpha (b1 / 4), alpha (b1 % 4 * 16), 61, 61]
  | [] => []

/-- Base64 decoding over a given alphabet (`base64.standard_b64decode` /
`base64.urlsafe_b64decode`); `none` models the `binascii.Error` raised on
input that is not well-formed base64. -/
def b64DecodeWith (inv : Nat → Option Nat) : List Nat → Option (List Nat)
  | [] => some []
  | c1 :: c2 :: c3 :: c4 :: rest => do
      let v1 ← inv c1
      let v2 ← inv c2
      if c3 == 61 && c4 == 61 && rest.isEmpty then
        some [v1 * 4 + v2 / 16]
      else if c4 == 61 && rest.isEmpty then do
        let v3 ← inv c3
        some [v1 * 4 + v2 / 16, v2 % 16 * 16 + v3 / 4]
      else do
        let v3 ← inv c3
        let v4 ← inv c4
        let d ← b64DecodeWith inv rest
        some ((v1 * 4 + v2 / 16) :: (v2 % 16 * 16 + v3 / 4) ::
              (v3 % 4 * 64 + v4) :: d)
  | _ => none

/-- Value of one hexadecimal digit character (`0-9`, `a-f`, `A-F`). -/
def hexDigitVal (c : Nat) : Option Nat :=
  if 48 ≤ c ∧ c ≤ 57 then some (c - 48)
  else if 97 ≤ c ∧ c ≤ 102 then some (c - 87)
  else if 65 ≤ c ∧ c ≤ 70 then some (c - 55)
  else none

/-- `binascii.a2b_hex`: decode pairs of hex digits to bytes; `none` models
the `binascii.Error` raised on odd-length or non-hexadecimal input. -/
def a2b_hex : List Nat → Option (List Nat)
  | [] => some []
  | c1 :: c2 :: rest => do
      let h ← hexDigitVal c1
      let l ← hexDigitVal c2
      let r ← a2b_hex rest
      some ((h * 16 + l) :: r)
  | _ => none

/-- Lowercase hexadecimal digit character for a value `< 16`. -/
def hexDigitChar (v : Nat) : Nat := if v < 10 then 48 + v else 87 + v

/-- Fuel-driven core of `%x` formatting. -/
def hexFormatAux : Nat → Nat → List Nat
  | 0, _ => []
  | fuel + 1, n =>
      if n < 16 then [hexDigitChar n]
      else hexFormatAux fuel (n / 16) ++ [hexDigitChar (n % 16)]

/-- Python's `'%x' % n`: lowercase hexadecimal, no leading zeros, `"0"` for 0. -/
def hexFormat (n : Nat) : List Nat := hexFormatAux (n + 1) n

/-- Python's `'%08lx' % n`: `hexFormat` left-padded with `0` to 8 digits. -/
def hex8 (n : Nat) : List Nat :=
  List.replicate (8 - (hexFormat n).length) 48 ++ hexFormat n

/-- Python's `int(s, 16)` on the digit strings produced by `%x` formatting:
`none` models the `ValueError` raised on empty or non-hexadecimal input. -/
def hexParse (l : List Nat) : Option Nat :=
  if l.isEmpty then none
  else l.foldl (fun acc c => do
    let a ← acc
    let d ← hexDigitVal c
    some (a * 16 + d)) (some 0)

/-- Python's `bytes.split(sep)` for a one-byte separator. -/
def splitByte (sep : Nat) : List Nat → List (List Nat)
  | [] => [[]]
  | c :: rest =>
      match splitByte sep rest with
      | [] => [[]]
      | h :: t => if c = sep then [] :: h :: t else (c :: h) :: t

/-- Python's `bytes.find` for a one-byte needle; `none` models the return
value `-1`. -/
def bFind (c : Nat) : List Nat → Option Nat
  | [] => none
  | x :: rest => if x = c then some 0 else (bFind c rest).map (· + 1)

/-- `b'{MD5}'` -/
def md5Tag : List Nat := [123, 77, 68, 53, 125]

/-- `b'{SMD5}'` -/
def smd5Tag : List Nat := [123, 83, 77, 68, 53, 125]

/-- `b'{SHA}'` -/
def shaTag : List Nat := [123, 83, 72, 65, 125]

/-- `b'{SHA1}'` (legacy tag recognised by the SHA1 manager) -/
def sha1LegacyTag : List Nat := [123, 83, 72, 65, 49, 125]

/-- `b'{SSHA}'` -/
def sshaTag : List Nat := [123, 83, 83, 72, 65, 125]

/-- `b'{MYSQL}'` -/
def mysqlTag : List Nat := [123, 77, 89, 83, 81, 76, 125]

/-- `'{CRYPT}'` -/
def cryptTag : List Nat := [123, 67, 82, 89, 80, 84, 125]

/-- `b'{BCRYPT}'` -/
def bcryptTag : List Nat := [123, 66, 67, 82, 89, 80, 84, 125]

/-- `b'{BCRYPTKDF}'` -/
def bcryptkdfTag : List Nat := [123, 66, 67, 82, 89, 80, 84, 75, 68, 70, 125]

/-- `PlainTextPasswordManager.encodePassword`. -/
def plainTextEncodePassword (password : Data) : List Nat := pyEncode password

/-- `PlainTextPasswordManager.checkPassword`: Python `==` between the raw
`encoded_password` argument and the `bytes` returned by `encodePassword`. -/
def plainTextCheckPassword (encoded password : Data) : Bool :=
  pyEqData encoded (plainTextEncodePassword password)

/-- `PlainTextPasswordManager.match`: always `False`. -/
def plainTextMatch (_ : Data) : Bool := false

/-- `_PrefixedPasswordManager.match`: normalise, then test the tag. -/
def prefixedMatch (tag : List Nat) (encoded : Data) : Bool :=
  tag.isPrefixOf (pyEncode encoded)

/-- `SSHAPasswordManager.encodePassword`.  `sha1f` is the `hashlib.sha1`
digest of its input; `sha1(pw).update(salt)` digests the concatenation.
`rand` models the `urandom(4)` bytes drawn when `salt is None`. -/
def sshaEncodePassword (sha1f : List Nat → List Nat) (rand : List Nat)
    (password : Data) (salt : Option Data) : List Nat :=
  let saltB := resolveSalt rand salt
  sshaTag ++ b64EncodeWith b64AlphaStd (sha1f (pyEncode password ++ saltB) ++ saltB)

/-- `SSHAPasswordManager.checkPassword`: strip the 6-byte tag, take the
URL-safe-alphabet branch when `_` or `-` occurs, recover the salt as the
bytes after the 20-byte digest, re-derive and compare. -/
def sshaCheckPassword (sha1f : List Nat → List Nat)
    (encoded password : Data) : Option Bool :=
  let e := (pyEncode encoded).drop 6
  if e.contains 95 || e.contains 45 then
    match b64DecodeWith b64InvUrl e with
    | none => none
    | some byteString =>
        let e2 := b64EncodeWith b64AlphaStd byteString
        some (e2 ==
          (sshaEncodePassword sha1f [] password
            (some (.bin (byteString.drop 20)))).drop 6)
  else
    match b64DecodeWith b64InvStd e with
    | none => none
    | some byteString =>
        some (e ==
          (sshaEncodePassword sha1f [] password
            (some (.bin (byteString.drop 20)))).drop 6)

/-- `SMD5PasswordManager.encodePassword` (`md5f` is the `hashlib.md5`
digest). -/
def smd5EncodePassword (md5f : List Nat → List Nat) (rand : List Nat)
    (password : Data) (salt : Option Data) : List Nat :=
  let saltB := resolveSalt rand salt
  smd5Tag ++ b64EncodeWith b64AlphaStd (md5f (pyEncode password ++ saltB) ++ saltB)

/-- `SMD5PasswordManager.checkPassword`: salt is the bytes after the 16-byte
digest; the full tagged credential is compared. -/
def smd5CheckPassword (md5f : List Nat → List Nat)
    (encoded password : Data) : Option Bool :=
  let e := pyEncode encoded
  match b64DecodeWith b64InvStd (e.drop 6) with
  | none => none
  | some byteString =>
      some (e ==
        smd5EncodePassword md5f [] password (some (.bin (byteString.drop 16))))

/-- `MD5PasswordManager.encodePassword`: the salt argument is ignored. -/
def md5EncodePassword (md5f : List Nat → List Nat) (password : Data)
    (_salt : Option Data) : List Nat :=
  md5Tag ++ b64EncodeWith b64AlphaStd (md5f (pyEncode password))

/-- `MD5PasswordManager.checkPassword`: drop everything up to and including
the first `}` (`find` returning -1 keeps the whole string); a payload longer
than 24 characters is treated as legacy hex with a cosmetic salt, of which
only the last 32 characters are decoded. -/
def md5CheckPassword (md5f : List Nat → List Nat)
    (encoded password : Data) : Option Bool :=
  let e := pyEncode encoded
  let enc := match bFind 125 e with
             | none => e
             | some i => e.drop (i + 1)
  if 24 < enc.length then
    match a2b_hex (enc.drop (enc.length - 32)) with
    | none => none
    | some bs =>
        some (b64EncodeWith b64AlphaStd bs ==
          (md5EncodePassword md5f password none).drop 5)
  else some (enc == (md5EncodePassword md5f password none).drop 5)

/-- `SHA1PasswordManager.encodePassword`: the salt argument is ignored. -/
def sha1EncodePassword (sha1f : List Nat → List Nat) (password : Data)
    (_salt : Option Data) : List Nat :=
  shaTag ++ b64EncodeWith b64AlphaStd (sha1f (pyEncode password))

/-- `SHA1PasswordManager.match`: accepts `{SHA}` and the legacy `{SHA1}`. -/
def sha1Match (encoded : Data) : Bool :=
  let e := pyEncode encoded
  shaTag.isPrefixOf e || sha1LegacyTag.isPrefixOf e

/-- `SHA1PasswordManager.checkPassword`: tagged values drop through the first
`}` with a legacy hex branch past 28 characters; untagged values are decoded
as legacy hex digests (last 40 characters). -/
def sha1CheckPassword (sha1f : List Nat → List Nat)
    (encoded password : Data) : Option Bool :=
  let e := pyEncode encoded
  if sha1Match (.bin e) then
    let enc := match bFind 125 e with
               | none => e
               | some i => e.drop (i + 1)
    if 28 < enc.length then
      match a2b_hex (enc.drop (enc.length - 40)) with
      | none => none
      | some bs =>
          some (b64EncodeWith b64AlphaStd bs ==
            (sha1EncodePassword sha1f password none).drop 5)
    else some (enc == (sha1EncodePassword sha1f password none).drop 5)
  else
    match a2b_hex (e.drop (e.length - 40)) with
    | none => none
    | some bs =>
        some (b64EncodeWith b64AlphaStd bs ==
          (sha1EncodePassword sha1f password none).drop 5)

/-- One character of the `[0-9]` class in the z3c.bcrypt regex. -/
def bcryptDigitChar (c : Nat) : Bool := 48 ≤ c && c ≤ 57

/-- One character of the `[./A-Za-z0-9]` class in the z3c.bcrypt regex. -/
def bcryptB64Char (c : Nat) : Bool :=
  c == 46 || c == 47 || (65 ≤ c && c ≤ 90) || (97 ≤ c && c ≤ 122) ||
    (48 ≤ c && c ≤ 57)

/-- `re.match` of `_z3c_bcrypt_syntax`, i.e. the pattern
`\$2a\$[0-9]{2}\$[./A-Za-z0-9]{53}` anchored at the start. -/
def z3cBcryptSyntaxMatch : List Nat → Bool
  | 36 :: 50 :: 97 :: 36 :: d1 :: d2 :: 36 :: rest =>
      bcryptDigitChar d1 && bcryptDigitChar d2 && decide (53 ≤ rest.length) &&
        (rest.take 53).all bcryptB64Char
  | _ => false

/-- `BCRYPTPasswordManager.match`. -/
def bcryptMatch (encoded : Data) : Bool :=
  let e := pyEncode encoded
  bcryptTag.isPrefixOf e || z3cBcryptSyntaxMatch e

/-- `BCRYPTPasswordManager.encodePassword` (`hashpw` is `bcrypt.hashpw`,
`gensalt` the salt drawn by `bcrypt.gensalt()` when none is supplied). -/
def bcryptEncodePassword (hashpw : List Nat → List Nat → List Nat)
    (gensalt : List Nat) (password : Data) (salt : Option Data) : List Nat :=
  bcryptTag ++ hashpw (pyEncode password) (resolveSalt gensalt salt)

/-- `BCRYPTPasswordManager.checkPassword`.  `checkpw` models
`bcrypt.checkpw` with the manager's `except ValueError` already folded in
(an invalid salt yields `false`).  A text credential that passes `match`
reaches `hashed_password.startswith(self._prefix)` un-normalised, where
`str.startswith(bytes)` raises `TypeError` (`none`). -/
def bcryptCheckPassword (checkpw : List Nat → List Nat → Bool)
    (hashed clear : Data) : Option Bool :=
  if !bcryptMatch hashed then some false
  else
    match hashed with
    | .txt _ => none
    | .bin h =>
        let pwHash := if bcryptTag.isPrefixOf h then h.drop 8 else h
        some (checkpw (pyEncode clear) pwHash)

/-- The tunable configuration of `BCRYPTKDFPasswordManager` (class
attributes `rounds = 1024`, `keylen = 32`, adjustable per instance). -/
structure BCRYPTKDFManager where
  rounds : Nat
  keylen : Nat
deriving DecidableEq

/-- `BCRYPTKDFPasswordManager._encode` (`kdf password salt keylen rounds`
models `bcrypt.kdf(password, salt=salt, desired_key_bytes=keylen,
rounds=rounds)`). -/
def bcryptkdfEncode (kdf : List Nat → List Nat → Nat → Nat → List Nat)
    (password : Data) (salt : List Nat) (rounds keylen : Nat) : List Nat :=
  bcryptkdfTag ++ hexFormat rounds ++ [36] ++
    b64EncodeWith b64AlphaUrl salt ++ [36] ++
    b64EncodeWith b64AlphaUrl (kdf (pyEncode password) salt keylen rounds)

/-- `BCRYPTKDFPasswordManager.encodePassword` (no salt parameter in the
source; `gensalt` models the `bcrypt.gensalt()` call). -/
def bcryptkdfEncodePassword (kdf : List Nat → List Nat → Nat → Nat → List Nat)
    (m : BCRYPTKDFManager) (gensalt : List Nat) (password : Data) : List Nat :=
  bcryptkdfEncode kdf password gensalt m.rounds m.keylen

/-- `BCRYPTKDFPasswordManager.match`. -/
def bcryptkdfMatch (encoded : Data) : Bool :=
  bcryptkdfTag.isPrefixOf (pyEncode encoded)

/-- `BCRYPTKDFPasswordManager.checkPassword`: parses rounds, salt and key
length back out of the credential (the manager configuration `_m` is never
consulted); a tagged value that does not split into exactly
`rounds$salt$key`, or whose fields fail to parse, raises (`none`). -/
def bcryptkdfCheckPassword (kdf : List Nat → List Nat → Nat → Nat → List Nat)
    (_m : BCRYPTKDFManager) (hashed clear : Data) : Option Bool :=
  let h := pyEncode hashed
  if !bcryptkdfMatch (.bin h) then some false
  else
    match splitByte 36 (h.drop 11) with
    | [roundsB, saltB, keyB] =>
        match hexParse roundsB, b64DecodeWith b64InvUrl saltB,
              b64DecodeWith b64InvUrl keyB with
        | some rounds, some salt, some key =>
            some (h == bcryptkdfEncode kdf clear salt rounds key.length)
        | _, _, _ => none
    | _ => none

/-- Python's `str.encode('ascii')`: `none` models the `UnicodeEncodeError`
raised on a non-ASCII code point. -/
def asciiEncode (s : List Nat) : Option (List Nat) :=
  if s.all (· < 128) then some s else none

/-- One step of the MySQL pre-4.1 rolling hash over state
`(nr, nr2, add)`, exactly as in `MySQLPasswordManager.encodePassword`
(Python integers are unbounded, so no reduction is applied): space (0x20)
and tab (0x09) bytes are skipped. -/
def mysqlStep (st : Nat × Nat × Nat) (i : Nat) : Nat × Nat × Nat :=
  if i = 32 ∨ i = 9 then st
  else
    let nr := st.1 ^^^ ((((st.1 &&& 63) + st.2.2) * i) + (st.1 <<< 8))
    let nr2 := st.2.1 + ((st.2.1 <<< 8) ^^^ nr)
    (nr, nr2, st.2.2 + i)

/-- `MySQLPasswordManager.encodePassword`: the raw utf-8 codec accepts only
text, so the password is a list of code points; the two accumulators are
masked to 31 bits and formatted with `%08lx`. -/
def mysqlEncodePassword (password : List Nat) : List Nat :=
  let st := (utf8Encode password).foldl mysqlStep (1345345333, 0x12345671, 7)
  mysqlTag ++ hex8 (st.1 &&& (2 ^ 31 - 1)) ++ hex8 (st.2.1 &&& (2 ^ 31 - 1))

/-- `MySQLPasswordManager.checkPassword`: a text credential is encoded as
ASCII (raising on non-ASCII), then compared bytewise. -/
def mysqlCheckPassword (encoded : Data) (password : List Nat) : Option Bool :=
  match encoded with
  | .bin e => some (e == mysqlEncodePassword password)
  | .txt s =>
      match asciiEncode s with
      | none => none
      | some e => some (e == mysqlEncodePassword password)

/-- `MySQLPasswordManager.match`. -/
def mysqlMatch (encoded : Data) : Option Bool :=
  match encoded with
  | .bin e => some (mysqlTag.isPrefixOf e)
  | .txt s =>
      match asciiEncode s with
      | none => none
      | some e => some (mysqlTag.isPrefixOf e)

/-- `CryptPasswordManager.encodePassword`: text in, text out (`cryptf` is
the platform `crypt.crypt`, `randSalt` the two characters drawn when no
salt is given). -/
def cryptEncodePassword (cryptf : List Nat → List Nat → List Nat)
    (randSalt : List Nat) (password : List Nat)
    (salt : Option (List Nat)) : List Nat :=
  cryptTag ++ cryptf password (salt.getD randSalt)

/-- `CryptPasswordManager.checkPassword`: re-runs `crypt` with the
2-character salt at offset 7; a `bytes` credential feeds a `bytes` salt to
`crypt.crypt`, which raises `TypeError` (`none`). -/
def cryptCheckPassword (cryptf : List Nat → List Nat → List Nat)
    (encoded : Data) (password : List Nat) : Option Bool :=
  match encoded with
  | .txt e =>
      some (e == cryptEncodePassword cryptf [] password
        (some ((e.drop 7).take 2)))
  | .bin _ => none

/-- `CryptPasswordManager.match`: `encoded_password.startswith('{CRYPT}')`
with a text needle — a `bytes` credential raises `TypeError` (`none`). -/
def cryptMatch (encoded : Data) : Option Bool :=
  match encoded with
  | .txt e => some (cryptTag.isPrefixOf e)
  | .bin _ => none

/-- Identifiers for the nine scheme implementations. -/
inductive SchemeId where
  | plainText
  | md5
  | smd5
  | sha1
  | ssha
  | mysql
  | crypt
  | bcrypt
  | bcryptkdf
deriving DecidableEq

/-- The `managers` registry built at the bottom of `password.py`: five
unconditional entries, plus the two bcrypt entries when the `bcrypt`
module imports. -/
def managers (bcryptAvailable : Bool) : List (String × SchemeId) :=
  [("Plain Text", .plainText), ("MD5", .md5), ("SMD5", .smd5),
   ("SHA1", .sha1), ("SSHA", .ssha)] ++
  (if bcryptAvailable then [("BCRYPT", .bcrypt), ("BCRYPTKDF", .bcryptkdf)]
   else [])

/-- Modelled from the spec: the registration order the specification claims
for the registry — Plaintext, MD5, SMD5, SHA1, SSHA, MySQL, Crypt (when the
platform crypt primitive is available), BCrypt, BCrypt-KDF (when the
adaptive-cost primitive is available).  Kept for comparison against
`managers`. -/
def specClaimedRegistry (cryptAvailable bcryptAvailable : Bool) :
    List SchemeId :=
  [.plainText, .md5, .smd5, .sha1, .ssha, .mysql] ++
  (if cryptAvailable then [.crypt] else []) ++
  (if bcryptAvailable then [.bcrypt, .bcryptkdf] else [])

/-- Calling `mgr.encodePassword(p, salt)` with an explicit salt argument on
each scheme: `encodePassword` of `PlainTextPasswordManager`,
`MySQLPasswordManager` and `BCRYPTKDFPasswordManager` takes no salt
parameter, so the call raises `TypeError` (`none`); the signature of
`CryptPasswordManager` requires text arguments. -/
def encodePasswordWithSaltArg (md5f sha1f : List Nat → List Nat)
    (hashpw cryptf : List Nat → List Nat → List Nat) (rand : List Nat) :
    SchemeId → Data → Data → Option (List Nat)
  | .plainText, _, _ => none
  | .md5, p, s => some (md5EncodePassword md5f p (some s))
  | .smd5, p, s => some (smd5EncodePassword md5f rand p (some s))
  | .sha1, p, s => some (sha1EncodePassword sha1f p (some s))
  | .ssha, p, s => some (sshaEncodePassword sha1f rand p (some s))
  | .mysql, _, _ => none
  | .crypt, p, s =>
      match p, s with
      | .txt pt, .txt st => some (cryptEncodePassword cryptf rand pt (some st))
      | _, _ => none
  | .bcrypt, p, s => some (bcryptEncodePassword hashpw rand p (some s))
  | .bcryptkdf, _, _ => none

/-- Modelled from the spec: one step of the MySQL rolling hash with every
intermediate value reduced modulo `2 ^ 32`, as the specification describes
the recurrence.  Kept for comparison against `mysqlStep`, which is the
source's unbounded-integer version. -/
def mysqlStepSpec (st : Nat × Nat × Nat) (i : Nat) : Nat × Nat × Nat :=
  if i = 32 ∨ i = 9 then st
  else
    let nr := (st.1 ^^^ ((((st.1 &&& 63) + st.2.2) * i) + (st.1 <<< 8))) % 2 ^ 32
    let nr2 := (st.2.1 + ((st.2.1 <<< 8) ^^^ nr)) % 2 ^ 32
    (nr, nr2, (st.2.2 + i) % 2 ^ 32)

/-- Modelled from the spec: the MySQL digest computed with the mod-`2 ^ 32`
recurrence, each accumulator masked to its low 31 bits and formatted as an
8-digit lowercase hex group behind the `{MYSQL}` tag. -/
def mysqlEncodeSpec (password : List Nat) : List Nat :=
  let st := (utf8Encode password).foldl mysqlStepSpec (1345345333, 0x12345671, 7)
  mysqlTag ++ hex8 (st.1 &&& (2 ^ 31 - 1)) ++ hex8 (st.2.1 &&& (2 ^ 31 - 1))

/-! ### Helper lemmas: lists, tags, byte strings -/

theorem byteList_append {a b : List Nat} (ha : byteList a) (hb : byteList b) :
    byteList (a ++ b) := by
  intro x hx
  rcases List.mem_append.mp hx with h | h
  · exact ha x h
  · exact hb x h

theorem byteList_of_append_left {a b : List Nat} (h : byteList (a ++ b)) :
    byteList a :=
  fun x hx => h x (List.mem_append.mpr (Or.inl hx))

theorem byteList_of_append_right {a b : List Nat} (h : byteList (a ++ b)) :
    byteList b :=
  fun x hx => h x (List.mem_append.mpr (Or.inr hx))

theorem contains_eq_false {a : Nat} {l : List Nat} (h : a ∉ l) :
    l.contains a = false := by
  induction l with
  | nil => rfl
  | cons x xs ih =>
      simp only [List.mem_cons, not_or] at h
      simp only [List.contains_cons, ih h.2, Bool.or_false]
      exact beq_eq_false_iff_ne.mpr h.1

theorem isPrefixOf_append_self : ∀ t r : List Nat, t.isPrefixOf (t ++ r) = true
  | [], _ => by simp
  | x :: xs, r => by simp [List.isPrefixOf, isPrefixOf_append_self xs r]

theorem drop_len_succ : ∀ (t : List Nat) (b : Nat) (rest : List Nat),
    (t ++ b :: rest).drop (t.length + 1) = rest
  | [], _, _ => rfl
  | x :: xs, b, rest => by
      simp [List.length_cons, Nat.add_right_comm, drop_len_succ xs b rest]

theorem bFind_cons_ne {c x : Nat} {l : List Nat} (h : x ≠ c) :
    bFind c (x :: l) = (bFind c l).map (· + 1) := by
  simp [bFind, h]

theorem bFind_not_mem {c : Nat} : ∀ {l : List Nat}, c ∉ l → bFind c l = none := by
  intro l
  induction l with
  | nil => intro _; rfl
  | cons x xs ih =>
      intro h
      simp only [List.mem_cons, not_or] at h
      rw [bFind_cons_ne (Ne.symm h.1), ih h.2]
      rfl

theorem bFind_self_after : ∀ (t : List Nat) (rest : List Nat), 125 ∉ t →
    bFind 125 (t ++ 125 :: rest) = some t.length
  | [], rest, _ => by simp [bFind]
  | x :: xs, rest, h => by
      simp only [List.mem_cons, not_or] at h
      rw [List.cons_append, bFind_cons_ne (Ne.symm h.1),
        bFind_self_after xs rest h.2]
      rfl

/-! ### Helper lemmas: base64 -/

theorem b64InvStd_alpha : ∀ v : Nat, v < 64 → b64InvStd (b64AlphaStd v) = some v := by
  decide

theorem b64InvUrl_alpha : ∀ v : Nat, v < 64 → b64InvUrl (b64AlphaUrl v) = some v := by
  decide

theorem b64AlphaStd_avoid : ∀ v : Nat, v < 64 →
    b64AlphaStd v ≠ 61 ∧ b64AlphaStd v ≠ 45 ∧ b64AlphaStd v ≠ 95 ∧
    b64AlphaStd v ≠ 125 ∧ b64AlphaStd v ≠ 123 ∧ b64AlphaStd v ≠ 36 := by
  decide

theorem b64AlphaUrl_avoid : ∀ v : Nat, v < 64 →
    b64AlphaUrl v ≠ 61 ∧ b64AlphaUrl v ≠ 36 := by
  decide

theorem b64Alpha_url_eq_std_char : ∀ v : Nat, v < 64 →
    b64AlphaUrl v ≠ 45 → b64AlphaUrl v ≠ 95 → b64AlphaUrl v = b64AlphaStd v := by
  decide

theorem b64_decode_encode (alpha : Nat → Nat) (inv : Nat → Option Nat)
    (hinv : ∀ v, v < 64 → inv (alpha v) = some v)
    (hne : ∀ v, v < 64 → alpha v ≠ 61) :
    ∀ l, byteList l → b64DecodeWith inv (b64EncodeWith alpha l) = some l
  | [], _ => rfl
  | [b1], h => by
      have hb1 : b1 < 256 := h b1 (by simp)
      simp only [b64EncodeWith, b64DecodeWith, hinv (b1 / 4) (by omega),
        hinv (b1 % 4 * 16) (by omega), Option.bind_eq_bind, Option.some_bind,
        List.isEmpty_nil, beq_self_eq_true, Bool.and_self, Bool.and_true,
        if_true]
      have e1 : b1 / 4 * 4 + b1 % 4 * 16 / 16 = b1 := by omega
      rw [e1]
  | [b1, b2], h => by
      have hb1 : b1 < 256 := h b1 (by simp)
      have hb2 : b2 < 256 := h b2 (by simp)
      have h3 : (alpha (b2 % 16 * 4) == 61) = false :=
        beq_eq_false_iff_ne.mpr (hne (b2 % 16 * 4) (by omega))
      simp only [b64EncodeWith, b64DecodeWith, hinv (b1 / 4) (by omega),
        hinv (b1 % 4 * 16 + b2 / 16) (by omega), hinv (b2 % 16 * 4) (by omega),
        Option.bind_eq_bind, Option.some_bind, h3, Bool.false_and,
        Bool.and_true, List.isEmpty_nil, beq_self_eq_true, Bool.true_and,
        if_false, if_true, Bool.and_self]
      have e1 : b1 / 4 * 4 + (b1 % 4 * 16 + b2 / 16) / 16 = b1 := by omega
      have e2 : (b1 % 4 * 16 + b2 / 16) % 16 * 16 + b2 % 16 * 4 / 4 = b2 := by
        omega
      rw [e1, e2]
      simp
  | b1 :: b2 :: b3 :: rest, h => by
      have hb1 : b1 < 256 := h b1 (by simp)
      have hb2 : b2 < 256 := h b2 (by simp)
      have hb3 : b3 < 256 := h b3 (by simp)
      have h3 : (alpha (b2 % 16 * 4 + b3 / 64) == 61) = false :=
        beq_eq_false_iff_ne.mpr (hne (b2 % 16 * 4 + b3 / 64) (by omega))
      have h4 : (alpha (b3 % 64) == 61) = false :=
        beq_eq_false_iff_ne.mpr (hne (b3 % 64) (by omega))
      have hrest : byteList rest := fun x hx => h x (by simp [hx])
      simp only [b64EncodeWith, b64DecodeWith, hinv (b1 / 4) (by omega),
        hinv (b1 % 4 * 16 + b2 / 16) (by omega),
        hinv (b2 % 16 * 4 + b3 / 64) (by omega), hinv (b3 % 64) (by omega),
        Option.bind_eq_bind, Option.some_bind, h3, h4, Bool.false_and,
        Bool.and_false, if_false,
        b64_decode_encode alpha inv hinv hne rest hrest]
      have e1 : b1 / 4 * 4 + (b1 % 4 * 16 + b2 / 16) / 16 = b1 := by omega
      have e2 : (b1 % 4 * 16 + b2 / 16) % 16 * 16 +
          (b2 % 16 * 4 + b3 / 64) / 4 = b2 := by omega
      have e3 : (b2 % 16 * 4 + b3 / 64) % 4 * 64 + b3 % 64 = b3 := by omega
      rw [e1, e2, e3]
      simp

theorem b64_encode_chars (alpha : Nat → Nat) (P : Nat → Prop)
    (hP : ∀ v, v < 64 → P (alpha v)) (h61 : P 61) :
    ∀ l, byteList l → ∀ c ∈ b64EncodeWith alpha l, P c
  | [], _ => by intro c hc; cases hc
  | [b1], h => by
      have hb1 : b1 < 256 := h b1 (by simp)
      intro c hc
      simp only [b64EncodeWith, List.mem_cons, List.not_mem_nil, or_false] at hc
      rcases hc with rfl | rfl | rfl | rfl
      · exact hP _ (by omega)
      · exact hP _ (by omega)
      · exact h61
      · exact h61
  | [b1, b2], h => by
      have hb1 : b1 < 256 := h b1 (by simp)
      have hb2 : b2 < 256 := h b2 (by simp)
      intro c hc
      simp only [b64EncodeWith, List.mem_cons, List.not_mem_nil, or_false] at hc
      rcases hc with rfl | rfl | rfl | rfl
      · exact hP _ (by omega)
      · exact hP _ (by omega)
      · exact hP _ (by omega)
      · exact h61
  | b1 :: b2 :: b3 :: rest, h => by
      have hb1 : b1 < 256 := h b1 (by simp)
      have hb2 : b2 < 256 := h b2 (by simp)
      have hb3 : b3 < 256 := h b3 (by simp)
      have hrest : byteList rest := fun x hx => h x (by simp [hx])
      intro c hc
      simp only [b64EncodeWith, List.mem_cons] at hc
      rcases hc with rfl | rfl | rfl | rfl | hc
      · exact hP _ (by omega)
      · exact hP _ (by omega)
      · exact hP _ (by omega)
      · exact hP _ (by omega)
      · exact b64_encode_chars alpha P hP h61 rest hrest c hc

theorem b64_std_avoid {l : List Nat} (hl : byteList l) :
    ∀ c ∈ b64EncodeWith b64AlphaStd l,
      c ≠ 45 ∧ c ≠ 95 ∧ c ≠ 125 ∧ c ≠ 123 := by
  refine b64_encode_chars b64AlphaStd _ ?_ (by omega) l hl
  intro v hv
  obtain ⟨_, h45, h95, h125, h123, _⟩ := b64AlphaStd_avoid v hv
  exact ⟨h45, h95, h125, h123⟩

theorem b64_url_no36 {l : List Nat} (hl : byteList l) :
    36 ∉ b64EncodeWith b64AlphaUrl l := by
  intro hmem
  have := b64_encode_chars b64AlphaUrl (fun c => c ≠ 36)
    (fun v hv => (b64AlphaUrl_avoid v hv).2) (by omega) l hl 36 hmem
  exact this rfl

theorem b64_url_eq_std : ∀ l : List Nat, byteList l →
    (∀ c ∈ b64EncodeWith b64AlphaUrl l, c ≠ 45 ∧ c ≠ 95) →
    b64EncodeWith b64AlphaUrl l = b64EncodeWith b64AlphaStd l
  | [], _, _ => rfl
  | [b1], h, havoid => by
      have hb1 : b1 < 256 := h b1 (by simp)
      have h1 := havoid (b64AlphaUrl (b1 / 4)) (by simp [b64EncodeWith])
      have h2 := havoid (b64AlphaUrl (b1 % 4 * 16)) (by simp [b64EncodeWith])
      simp only [b64EncodeWith]
      rw [b64Alpha_url_eq_std_char _ (by omega) h1.1 h1.2,
        b64Alpha_url_eq_std_char _ (by omega) h2.1 h2.2]
  | [b1, b2], h, havoid => by
      have hb1 : b1 < 256 := h b1 (by simp)
      have hb2 : b2 < 256 := h b2 (by simp)
      have h1 := havoid (b64AlphaUrl (b1 / 4)) (by simp [b64EncodeWith])
      have h2 := havoid (b64AlphaUrl (b1 % 4 * 16 + b2 / 16))
        (by simp [b64EncodeWith])
      have h3 := havoid (b64AlphaUrl (b2 % 16 * 4)) (by simp [b64EncodeWith])
      simp only [b64EncodeWith]
      rw [b64Alpha_url_eq_std_char _ (by omega) h1.1 h1.2,
        b64Alpha_url_eq_std_char _ (by omega) h2.1 h2.2,
        b64Alpha_url_eq_std_char _ (by omega) h3.1 h3.2]
  | b1 :: b2 :: b3 :: rest, h, havoid => by
      have hb1 : b1 < 256 := h b1 (by simp)
      have hb2 : b2 < 256 := h b2 (by simp)
      have hb3 : b3 < 256 := h b3 (by simp)
      have hrest : byteList rest := fun x hx => h x (by simp [hx])
      have h1 := havoid (b64AlphaUrl (b1 / 4)) (by simp [b64EncodeWith])
      have h2 := havoid (b64AlphaUrl (b1 % 4 * 16 + b2 / 16))
        (by simp [b64EncodeWith])
      have h3 := havoid (b64AlphaUrl (b2 % 16 * 4 + b3 / 64))
        (by simp [b64EncodeWith])
      have h4 := havoid (b64AlphaUrl (b3 % 64)) (by simp [b64EncodeWith])
      have hrec := b64_url_eq_std rest hrest
        (fun c hc => havoid c (by simp [b64EncodeWith, hc]))
      simp only [b64EncodeWith]
      rw [b64Alpha_url_eq_std_char _ (by omega) h1.1 h1.2,
        b64Alpha_url_eq_std_char _ (by omega) h2.1 h2.2,
        b64Alpha_url_eq_std_char _ (by omega) h3.1 h3.2,
        b64Alpha_url_eq_std_char _ (by omega) h4.1 h4.2, hrec]

theorem b64_encode_length (alpha : Nat → Nat) :
    ∀ l : List Nat, (b64EncodeWith alpha l).length = (l.length + 2) / 3 * 4
  | [] => rfl
  | [_] => by simp [b64EncodeWith]
  | [_, _] => by simp [b64EncodeWith]
  | b1 :: b2 :: b3 :: rest => by
      simp only [b64EncodeWith, List.length_cons,
        b64_encode_length alpha rest]
      omega

/-! ### Helper lemmas: hexadecimal formatting and parsing -/

theorem hexDigitVal_char : ∀ v : Nat, v < 16 →
    hexDigitVal (hexDigitChar v) = some v := by
  decide

theorem hexDigitChar_avoid : ∀ v : Nat, v < 16 → hexDigitChar v ≠ 36 := by
  decide

theorem hexFormatAux_congr : ∀ f1 f2 n : Nat, n < f1 → n < f2 →
    hexFormatAux f1 n = hexFormatAux f2 n
  | 0, _, n, h1, _ => absurd h1 (Nat.not_lt_zero n)
  | _ + 1, 0, n, _, h2 => absurd h2 (Nat.not_lt_zero n)
  | f1 + 1, f2 + 1, n, h1, h2 => by
      simp only [hexFormatAux]
      by_cases h : n < 16
      · simp [h]
      · simp only [h, if_false]
        rw [hexFormatAux_congr f1 f2 (n / 16) (by omega) (by omega)]

theorem hexFormat_lt {n : Nat} (h : n < 16) : hexFormat n = [hexDigitChar n] := by
  simp [hexFormat, hexFormatAux, h]

theorem hexFormat_ge {n : Nat} (h : 16 ≤ n) :
    hexFormat n = hexFormat (n / 16) ++ [hexDigitChar (n % 16)] := by
  show hexFormatAux (n + 1) n = hexFormatAux (n / 16 + 1) (n / 16) ++ _
  rw [hexFormatAux]
  simp only [Nat.not_lt_of_ge h, if_false]
  rw [hexFormatAux_congr n (n / 16 + 1) (n / 16) (by omega) (by omega)]

theorem hexFormat_ne_nil (n : Nat) : hexFormat n ≠ [] := by
  by_cases h : n < 16
  · rw [hexFormat_lt h]; simp
  · rw [hexFormat_ge (by omega)]; simp

theorem hexFormat_chars (n : Nat) :
    ∀ c ∈ hexFormat n, ∃ v, v < 16 ∧ c = hexDigitChar v := by
  by_cases h : n < 16
  · rw [hexFormat_lt h]
    intro c hc
    simp only [List.mem_singleton] at hc
    exact ⟨n, h, hc⟩
  · rw [hexFormat_ge (by omega)]
    intro c hc
    rcases List.mem_append.mp hc with h1 | h1
    · exact hexFormat_chars (n / 16) c h1
    · simp only [List.mem_singleton] at h1
      exact ⟨n % 16, by omega, h1⟩
termination_by n
decreasing_by omega

theorem hexFormat_no36 (n : Nat) : 36 ∉ hexFormat n := by
  intro hmem
  obtain ⟨v, hv, he⟩ := hexFormat_chars n 36 hmem
  exact hexDigitChar_avoid v hv he.symm

theorem hexFormat_foldl (n : Nat) : ∀ a : Nat,
    (hexFormat n).foldl (fun acc c => do
      let x ← acc
      let d ← hexDigitVal c
      some (x * 16 + d)) (some a) = some (a * 16 ^ (hexFormat n).length + n) := by
  by_cases h : n < 16
  · rw [hexFormat_lt h]
    intro a
    simp [hexDigitVal_char n h]
  · rw [hexFormat_ge (by omega)]
    intro a
    rw [List.foldl_append, hexFormat_foldl (n / 16) a]
    simp only [List.foldl_cons, List.foldl_nil, Option.bind_eq_bind,
      Option.some_bind, hexDigitVal_char (n % 16) (by omega),
      List.length_append, List.length_singleton]
    congr 1
    have h2 : 16 * (n / 16) + n % 16 = n := by omega
    calc (a * 16 ^ (hexFormat (n / 16)).length + n / 16) * 16 + n % 16
        = a * (16 ^ (hexFormat (n / 16)).length * 16) +
            (16 * (n / 16) + n % 16) := by ring
      _ = a * 16 ^ ((hexFormat (n / 16)).length + 1) + n := by
            rw [h2, pow_succ]
termination_by n
decreasing_by omega

theorem hexParse_format (n : Nat) : hexParse (hexFormat n) = some n := by
  rw [hexParse]
  have h1 : (hexFormat n).isEmpty = false := by
    cases hf : hexFormat n with
    | nil => exact absurd hf (hexFormat_ne_nil n)
    | cons x xs => rfl
  rw [h1]
  simp only [Bool.false_eq_true, if_false]
  rw [hexFormat_foldl n 0]
  simp

/-! ### Helper lemmas: `bytes.split` -/

theorem splitByte_ne_nil (sep : Nat) : ∀ l : List Nat, splitByte sep l ≠ []
  | [] => by simp [splitByte]
  | c :: rest => by
      rw [splitByte]
      cases hs : splitByte sep rest with
      | nil => exact absurd hs (splitByte_ne_nil sep rest)
      | cons h t => by_cases hc : c = sep <;> simp [hc]

theorem splitByte_no_sep {sep : Nat} : ∀ {l : List Nat}, sep ∉ l →
    splitByte sep l = [l]
  | [], _ => rfl
  | c :: rest, h => by
      simp only [List.mem_cons, not_or] at h
      have hc : c ≠ sep := fun e => h.1 e.symm
      rw [splitByte, splitByte_no_sep h.2]
      simp [hc]

theorem splitByte_append {sep : Nat} : ∀ {a : List Nat}, sep ∉ a →
    ∀ l : List Nat, splitByte sep (a ++ sep :: l) = a :: splitByte sep l
  | [], _, l => by
      simp only [List.nil_append]
      rw [splitByte]
      cases hs : splitByte sep l with
      | nil => exact absurd hs (splitByte_ne_nil sep l)
      | cons h t => simp [← hs]
  | c :: a', h, l => by
      simp only [List.mem_cons, not_or] at h
      simp only [List.cons_append]
      have hc : c ≠ sep := fun e => h.1 e.symm
      rw [splitByte, splitByte_append h.2 l]
      simp [hc]

theorem splitByte_three {a b c : List Nat} (ha : 36 ∉ a) (hb : 36 ∉ b)
    (hc : 36 ∉ c) : splitByte 36 (a ++ 36 :: (b ++ 36 :: c)) = [a, b, c] := by
  rw [splitByte_append ha, splitByte_append hb, splitByte_no_sep hc]

/-! ### Helper lemmas: arithmetic modulo `2 ^ 32` (MySQL hash) -/

theorem xor_mod_two_pow (a b n : Nat) :
    (a ^^^ b) % 2 ^ n = a % 2 ^ n ^^^ b % 2 ^ n := by
  apply Nat.eq_of_testBit_eq
  intro i
  simp only [Nat.testBit_mod_two_pow, Nat.testBit_xor]
  by_cases h : i < n <;> simp [h]

theorem xor_mod_congr {n a a' b b' : Nat} (ha : a % 2 ^ n = a' % 2 ^ n)
    (hb : b % 2 ^ n = b' % 2 ^ n) :
    (a ^^^ b) % 2 ^ n = (a' ^^^ b') % 2 ^ n := by
  rw [xor_mod_two_pow, ha, hb, ← xor_mod_two_pow]

theorem and63_mod (a : Nat) : a % 2 ^ 32 &&& 63 = a &&& 63 := by
  have h1 := Nat.and_pow_two_sub_one_eq_mod (a % 2 ^ 32) 6
  have h2 := Nat.and_pow_two_sub_one_eq_mod a 6
  have h3 : (2 : Nat) ^ 6 - 1 = 63 := by norm_num
  rw [h3] at h1 h2
  rw [h1, h2]
  exact Nat.mod_mod_of_dvd a (pow_dvd_pow 2 (by norm_num))

theorem and31_mod (a : Nat) : a % 2 ^ 32 &&& (2 ^ 31 - 1) = a &&& (2 ^ 31 - 1) := by
  rw [Nat.and_pow_two_sub_one_eq_mod, Nat.and_pow_two_sub_one_eq_mod]
  exact Nat.mod_mod_of_dvd a (pow_dvd_pow 2 (by norm_num))

theorem mysqlStep_congr {s t : Nat × Nat × Nat}
    (h1 : t.1 = s.1 % 2 ^ 32) (h2 : t.2.1 = s.2.1 % 2 ^ 32)
    (h3 : t.2.2 = s.2.2 % 2 ^ 32) (i : Nat) :
    (mysqlStepSpec t i).1 = (mysqlStep s i).1 % 2 ^ 32 ∧
    (mysqlStepSpec t i).2.1 = (mysqlStep s i).2.1 % 2 ^ 32 ∧
    (mysqlStepSpec t i).2.2 = (mysqlStep s i).2.2 % 2 ^ 32 := by
  obtain ⟨s1, s2, s3⟩ := s
  obtain ⟨t1, t2, t3⟩ := t
  simp only at h1 h2 h3
  subst h1 h2 h3
  by_cases hskip : i = 32 ∨ i = 9
  · simp [mysqlStep, mysqlStepSpec, hskip]
  · simp only [mysqlStep, mysqlStepSpec, if_neg hskip]
    have hand : s1 % 2 ^ 32 &&& 63 = s1 &&& 63 := and63_mod s1
    have hY : (((s1 % 2 ^ 32 &&& 63) + s3 % 2 ^ 32) * i +
        ((s1 % 2 ^ 32) <<< 8)) ≡ (((s1 &&& 63) + s3) * i + (s1 <<< 8))
        [MOD 2 ^ 32] := by
      apply Nat.ModEq.add
      · apply Nat.ModEq.mul _ (Nat.ModEq.refl i)
        rw [hand]
        exact Nat.ModEq.add (Nat.ModEq.refl _) (Nat.mod_modEq s3 (2 ^ 32))
      · simp only [Nat.shiftLeft_eq]
        exact Nat.ModEq.mul (Nat.mod_modEq s1 (2 ^ 32)) (Nat.ModEq.refl _)
    have hnr : (s1 % 2 ^ 32 ^^^ (((s1 % 2 ^ 32 &&& 63) + s3 % 2 ^ 32) * i +
        ((s1 % 2 ^ 32) <<< 8))) % 2 ^ 32 =
        (s1 ^^^ (((s1 &&& 63) + s3) * i + (s1 <<< 8))) % 2 ^ 32 :=
      xor_mod_congr (Nat.mod_mod_of_dvd s1 dvd_rfl) hY
    refine ⟨hnr, ?_, ?_⟩
    · have hsh : ((s2 % 2 ^ 32) <<< 8) ≡ (s2 <<< 8) [MOD 2 ^ 32] := by
        simp only [Nat.shiftLeft_eq]
        exact Nat.ModEq.mul (Nat.mod_modEq s2 (2 ^ 32)) (Nat.ModEq.refl _)
      have hb : ((s1 % 2 ^ 32 ^^^ (((s1 % 2 ^ 32 &&& 63) + s3 % 2 ^ 32) * i +
          ((s1 % 2 ^ 32) <<< 8))) % 2 ^ 32) % 2 ^ 32 =
          (s1 ^^^ (((s1 &&& 63) + s3) * i + (s1 <<< 8))) % 2 ^ 32 := by
        rw [Nat.mod_mod_of_dvd _ dvd_rfl, hnr]
      have hx : (((s2 % 2 ^ 32) <<< 8) ^^^
          ((s1 % 2 ^ 32 ^^^ (((s1 % 2 ^ 32 &&& 63) + s3 % 2 ^ 32) * i +
            ((s1 % 2 ^ 32) <<< 8))) % 2 ^ 32)) % 2 ^ 32 =
          ((s2 <<< 8) ^^^ (s1 ^^^ (((s1 &&& 63) + s3) * i + (s1 <<< 8)))) %
            2 ^ 32 := xor_mod_congr hsh hb
      exact Nat.ModEq.add (Nat.mod_modEq s2 (2 ^ 32)) hx
    · exact Nat.ModEq.add (Nat.mod_modEq s3 (2 ^ 32)) (Nat.ModEq.refl i)

theorem mysql_fold_congr : ∀ (l : List Nat) (s t : Nat × Nat × Nat),
    t.1 = s.1 % 2 ^ 32 → t.2.1 = s.2.1 % 2 ^ 32 → t.2.2 = s.2.2 % 2 ^ 32 →
    (l.foldl mysqlStepSpec t).1 = (l.foldl mysqlStep s).1 % 2 ^ 32 ∧
    (l.foldl mysqlStepSpec t).2.1 = (l.foldl mysqlStep s).2.1 % 2 ^ 32 ∧
    (l.foldl mysqlStepSpec t).2.2 = (l.foldl mysqlStep s).2.2 % 2 ^ 32
  | [], s, t, h1, h2, h3 => ⟨h1, h2, h3⟩
  | i :: rest, s, t, h1, h2, h3 => by
      obtain ⟨g1, g2, g3⟩ := mysqlStep_congr h1 h2 h3 i
      simpa only [List.foldl_cons] using
        mysql_fold_congr rest (mysqlStep s i) (mysqlStepSpec t i) g1 g2 g3

/-! ### Helper lemmas: tags and per-scheme round trips -/

theorem smd5Tag_drop (r : List Nat) : (smd5Tag ++ r).drop 6 = r := rfl

theorem sshaTag_drop (r : List Nat) : (sshaTag ++ r).drop 6 = r := rfl

theorem md5Tag_drop (r : List Nat) : (md5Tag ++ r).drop 5 = r := rfl

theorem shaTag_drop (r : List Nat) : (shaTag ++ r).drop 5 = r := rfl

theorem bcryptTag_drop (r : List Nat) : (bcryptTag ++ r).drop 8 = r := rfl

theorem bcryptkdfTag_drop (r : List Nat) : (bcryptkdfTag ++ r).drop 11 = r := rfl

theorem md5Tag_bfind (r : List Nat) : bFind 125 (md5Tag ++ r) = some 4 := rfl

theorem shaTag_bfind (r : List Nat) : bFind 125 (shaTag ++ r) = some 4 := rfl

theorem pyEncode_bin (b : List Nat) : pyEncode (.bin b) = b := rfl

theorem pyEncode_txt (s : List Nat) : pyEncode (.txt s) = utf8Encode s := rfl

theorem resolveSalt_some (r : List Nat) (d : Data) :
    resolveSalt r (some d) = pyEncode d := rfl

theorem resolveSalt_none (r : List Nat) : resolveSalt r none = r := rfl

theorem plain_roundtrip (p : Data) :
    plainTextCheckPassword (.bin (plainTextEncodePassword p)) p = true := by
  simp [plainTextCheckPassword, pyEqData]

theorem md5_roundtrip (md5f : List Nat → List Nat)
    (hlen : ∀ x, (md5f x).length = 16) (p : Data) (salt : Option Data) :
    md5CheckPassword md5f (.bin (md5EncodePassword md5f p salt)) p = some true := by
  have hl : (b64EncodeWith b64AlphaStd (md5f (pyEncode p))).length = 24 := by
    rw [b64_encode_length, hlen]
  simp only [md5CheckPassword, md5EncodePassword, pyEncode_bin, md5Tag_bfind]
  norm_num [md5Tag_drop, hl]

theorem sha1_roundtrip (sha1f : List Nat → List Nat)
    (hlen : ∀ x, (sha1f x).length = 20) (p : Data) (salt : Option Data) :
    sha1CheckPassword sha1f (.bin (sha1EncodePassword sha1f p salt)) p =
      some true := by
  have hl : (b64EncodeWith b64AlphaStd (sha1f (pyEncode p))).length = 28 := by
    rw [b64_encode_length, hlen]
  have hm : sha1Match (.bin (shaTag ++
      b64EncodeWith b64AlphaStd (sha1f (pyEncode p)))) = true := by
    simp only [sha1Match, pyEncode_bin, isPrefixOf_append_self, Bool.true_or]
  simp only [sha1CheckPassword, sha1EncodePassword, pyEncode_bin, hm,
    shaTag_bfind, if_true]
  norm_num [shaTag_drop, hl]

theorem smd5_roundtrip (md5f : List Nat → List Nat)
    (hlen : ∀ x, (md5f x).length = 16) (hbytes : ∀ x, byteList (md5f x))
    (p : Data) (rand : List Nat) (salt : Option Data)
    (hs : byteList (resolveSalt rand salt)) :
    smd5CheckPassword md5f (.bin (smd5EncodePassword md5f rand p salt)) p =
      some true := by
  have hX : byteList (md5f (pyEncode p ++ resolveSalt rand salt) ++
      resolveSalt rand salt) := byteList_append (hbytes _) hs
  have hdec := b64_decode_encode b64AlphaStd b64InvStd b64InvStd_alpha
    (fun v hv => (b64AlphaStd_avoid v hv).1) _ hX
  have hdrop : (md5f (pyEncode p ++ resolveSalt rand salt) ++
      resolveSalt rand salt).drop 16 = resolveSalt rand salt :=
    List.drop_left' (hlen _)
  simp only [smd5CheckPassword, smd5EncodePassword, pyEncode_bin, smd5Tag_drop,
    resolveSalt_some, hdec, hdrop]
  simp

theorem ssha_roundtrip (sha1f : List Nat → List Nat)
    (hlen : ∀ x, (sha1f x).length = 20) (hbytes : ∀ x, byteList (sha1f x))
    (p : Data) (rand : List Nat) (salt : Option Data)
    (hs : byteList (resolveSalt rand salt)) :
    sshaCheckPassword sha1f (.bin (sshaEncodePassword sha1f rand p salt)) p =
      some true := by
  have hX : byteList (sha1f (pyEncode p ++ resolveSalt rand salt) ++
      resolveSalt rand salt) := byteList_append (hbytes _) hs
  have hc45 : (b64EncodeWith b64AlphaStd
      (sha1f (pyEncode p ++ resolveSalt rand salt) ++
        resolveSalt rand salt)).contains 45 = false :=
    contains_eq_false (fun hm => (b64_std_avoid hX _ hm).1 rfl)
  have hc95 : (b64EncodeWith b64AlphaStd
      (sha1f (pyEncode p ++ resolveSalt rand salt) ++
        resolveSalt rand salt)).contains 95 = false :=
    contains_eq_false (fun hm => (b64_std_avoid hX _ hm).2.1 rfl)
  have hdec := b64_decode_encode b64AlphaStd b64InvStd b64InvStd_alpha
    (fun v hv => (b64AlphaStd_avoid v hv).1) _ hX
  have hdrop : (sha1f (pyEncode p ++ resolveSalt rand salt) ++
      resolveSalt rand salt).drop 20 = resolveSalt rand salt :=
    List.drop_left' (hlen _)
  simp only [sshaCheckPassword, sshaEncodePassword, pyEncode_bin, sshaTag_drop,
    resolveSalt_some, hc45, hc95, Bool.or_false, Bool.false_or, if_false,
    Bool.false_eq_true, hdec, hdrop]
  simp

theorem bcrypt_roundtrip (hashpw : List Nat → List Nat → List Nat)
    (checkpw : List Nat → List Nat → Bool)
    (hok : ∀ pw s, checkpw pw (hashpw pw s) = true)
    (gensalt : List Nat) (p : Data) (salt : Option Data) :
    bcryptCheckPassword checkpw (.bin (bcryptEncodePassword hashpw gensalt p salt))
      p = some true := by
  have hm : bcryptMatch (.bin (bcryptTag ++
      hashpw (pyEncode p) (resolveSalt gensalt salt))) = true := by
    simp only [bcryptMatch, pyEncode_bin, isPrefixOf_append_self, Bool.true_or]
  simp only [bcryptCheckPassword, bcryptEncodePassword, hm, Bool.not_true,
    Bool.false_eq_true, if_false, isPrefixOf_append_self, if_true,
    bcryptTag_drop, hok]

theorem bcryptkdfMatch_append (r : List Nat) :
    bcryptkdfMatch (.bin (bcryptkdfTag ++ r)) = true := by
  simp only [bcryptkdfMatch, pyEncode_bin, isPrefixOf_append_self]

theorem bcryptkdf_roundtrip (kdf : List Nat → List Nat → Nat → Nat → List Nat)
    (hklen : ∀ pw s k r, (kdf pw s k r).length = k)
    (hkbytes : ∀ pw s k r, byteList (kdf pw s k r))
    (m1 m2 : BCRYPTKDFManager) (gensalt : List Nat) (hg : byteList gensalt)
    (p : Data) :
    bcryptkdfCheckPassword kdf m2
      (.bin (bcryptkdfEncodePassword kdf m1 gensalt p)) p = some true := by
  have hsplit := splitByte_three (hexFormat_no36 m1.rounds) (b64_url_no36 hg)
    (b64_url_no36 (hkbytes (pyEncode p) gensalt m1.keylen m1.rounds))
  have hdecs := b64_decode_encode b64AlphaUrl b64InvUrl b64InvUrl_alpha
    (fun v hv => (b64AlphaUrl_avoid v hv).1) gensalt hg
  have hdeck := b64_decode_encode b64AlphaUrl b64InvUrl b64InvUrl_alpha
    (fun v hv => (b64AlphaUrl_avoid v hv).1) _
    (hkbytes (pyEncode p) gensalt m1.keylen m1.rounds)
  simp only [bcryptkdfCheckPassword, bcryptkdfEncodePassword, bcryptkdfEncode,
    pyEncode_bin, List.append_assoc, List.singleton_append,
    List.cons_append, List.nil_append, bcryptkdfMatch_append, Bool.not_true,
    Bool.false_eq_true, if_false, bcryptkdfTag_drop]
  rw [hsplit]
  simp only [hexParse_format, hdecs, hdeck, hklen]
  simp

/-! ### Claim theorems -/

/-- C1: for every scheme in the `managers` registry and every password `p`,
`checkPassword (encodePassword p) p` is true (the randomly drawn salt is the
`rand`/`m` parameter), and for every scheme whose `encodePassword` accepts an
explicit salt argument (MD5, SMD5, SHA1, SSHA, BCRYPT) and every accepted
salt, `checkPassword (encodePassword p salt) p` is true: the salt embedded at
encode time is recovered by check and re-derivation reproduces the stored
credential exactly.  The digest primitives are abstract, constrained to their
documented digest lengths and byte-valued output. -/
theorem claim_C1 (md5f sha1f : List Nat → List Nat)
    (kdf : List Nat → List Nat → Nat → Nat → List Nat)
    (hashpw : List Nat → List Nat → List Nat)
    (checkpw : List Nat → List Nat → Bool)
    (hmd5len : ∀ x, (md5f x).length = 16) (hmd5bytes : ∀ x, byteList (md5f x))
    (hsha1len : ∀ x, (sha1f x).length = 20)
    (hsha1bytes : ∀ x, byteList (sha1f x))
    (hkdflen : ∀ pw s k r, (kdf pw s k r).length = k)
    (hkdfbytes : ∀ pw s k r, byteList (kdf pw s k r))
    (hbcrypt : ∀ pw s, checkpw pw (hashpw pw s) = true)
    (m : BCRYPTKDFManager) (p : Data) (salt : Data)
    (hsalt : byteList (pyEncode salt)) (rand : List Nat)
    (hrand : byteList rand) :
    (plainTextCheckPassword (.bin (plainTextEncodePassword p)) p = true ∧
     md5CheckPassword md5f (.bin (md5EncodePassword md5f p none)) p =
       some true ∧
     smd5CheckPassword md5f (.bin (smd5EncodePassword md5f rand p none)) p =
       some true ∧
     sha1CheckPassword sha1f (.bin (sha1EncodePassword sha1f p none)) p =
       some true ∧
     sshaCheckPassword sha1f (.bin (sshaEncodePassword sha1f rand p none)) p =
       some true ∧
     bcryptCheckPassword checkpw
       (.bin (bcryptEncodePassword hashpw rand p none)) p = some true ∧
     bcryptkdfCheckPassword kdf m
       (.bin (bcryptkdfEncodePassword kdf m rand p)) p = some true) ∧
    (md5CheckPassword md5f (.bin (md5EncodePassword md5f p (some salt))) p =
       some true ∧
     smd5CheckPassword md5f
       (.bin (smd5EncodePassword md5f rand p (some salt))) p = some true ∧
     sha1CheckPassword sha1f
       (.bin (sha1EncodePassword sha1f p (some salt))) p = some true ∧
     sshaCheckPassword sha1f
       (.bin (sshaEncodePassword sha1f rand p (some salt))) p = some true ∧
     bcryptCheckPassword checkpw
       (.bin (bcryptEncodePassword hashpw rand p (some salt))) p =
       some true) := by
  have hrand' : byteList (resolveSalt rand none) := by
    rw [resolveSalt_none]; exact hrand
  have hsalt' : byteList (resolveSalt rand (some salt)) := by
    rw [resolveSalt_some]; exact hsalt
  exact ⟨⟨plain_roundtrip p,
    md5_roundtrip md5f hmd5len p none,
    smd5_roundtrip md5f hmd5len hmd5bytes p rand none hrand',
    sha1_roundtrip sha1f hsha1len p none,
    ssha_roundtrip sha1f hsha1len hsha1bytes p rand none hrand',
    bcrypt_roundtrip hashpw checkpw hbcrypt rand p none,
    bcryptkdf_roundtrip kdf hkdflen hkdfbytes m m rand hrand p⟩,
   ⟨md5_roundtrip md5f hmd5len p (some salt),
    smd5_roundtrip md5f hmd5len hmd5bytes p rand (some salt) hsalt',
    sha1_roundtrip sha1f hsha1len p (some salt),
    ssha_roundtrip sha1f hsha1len hsha1bytes p rand (some salt) hsalt',
    bcrypt_roundtrip hashpw checkpw hbcrypt rand p (some salt)⟩⟩

/-- Witness for C1 at concrete inputs: dummy digests of the documented
lengths, password `b"abc"`, salt `b"\x01\x02\x03\x04"`. -/
theorem claim_C1_witness :
    md5CheckPassword (fun _ => List.replicate 16 0)
      (.bin (md5EncodePassword (fun _ => List.replicate 16 0)
        (.bin [97, 98, 99]) none)) (.bin [97, 98, 99]) = some true :=
  (claim_C1 (fun _ => List.replicate 16 0) (fun _ => List.replicate 20 0)
    (fun _ _ k _ => List.replicate k 0) (fun pw s => pw ++ s)
    (fun pw h => pw.isPrefixOf h)
    (fun _ => by simp)
    (fun _ b hb => by have := List.eq_of_mem_replicate hb; omega)
    (fun _ => by simp)
    (fun _ b hb => by have := List.eq_of_mem_replicate hb; omega)
    (fun _ _ _ _ => by simp)
    (fun _ _ _ _ b hb => by have := List.eq_of_mem_replicate hb; omega)
    (fun pw s => isPrefixOf_append_self pw s)
    ⟨51, 32⟩ (.bin [97, 98, 99]) (.bin [1, 2, 3, 4]) (by decide)
    [5, 6, 7, 8] (by decide)).1.2.1

/-- C3: for every registered scheme other than Plaintext, `match` accepts the
scheme's own `encodePassword` output; the Plaintext scheme's `match` returns
false on every input whatsoever. -/
theorem claim_C3 (md5f sha1f : List Nat → List Nat)
    (kdf : List Nat → List Nat → Nat → Nat → List Nat)
    (hashpw : List Nat → List Nat → List Nat) (m : BCRYPTKDFManager)
    (p : Data) (salt : Option Data) (rand : List Nat) :
    (∀ d : Data, plainTextMatch d = false) ∧
    prefixedMatch md5Tag (.bin (md5EncodePassword md5f p salt)) = true ∧
    prefixedMatch smd5Tag (.bin (smd5EncodePassword md5f rand p salt)) = true ∧
    sha1Match (.bin (sha1EncodePassword sha1f p salt)) = true ∧
    prefixedMatch sshaTag (.bin (sshaEncodePassword sha1f rand p salt)) = true ∧
    bcryptMatch (.bin (bcryptEncodePassword hashpw rand p salt)) = true ∧
    bcryptkdfMatch (.bin (bcryptkdfEncodePassword kdf m rand p)) = true := by
  refine ⟨fun _ => rfl, ?_, ?_, ?_, ?_, ?_, ?_⟩
  · simp only [prefixedMatch, md5EncodePassword, pyEncode_bin,
      isPrefixOf_append_self]
  · simp only [prefixedMatch, smd5EncodePassword, pyEncode_bin,
      isPrefixOf_append_self]
  · simp only [sha1Match, sha1EncodePassword, pyEncode_bin,
      isPrefixOf_append_self, Bool.true_or]
  · simp only [prefixedMatch, sshaEncodePassword, pyEncode_bin,
      isPrefixOf_append_self]
  · simp only [bcryptMatch, bcryptEncodePassword, pyEncode_bin,
      isPrefixOf_append_self, Bool.true_or]
  · simp only [bcryptkdfEncodePassword, bcryptkdfEncode, List.append_assoc,
      bcryptkdfMatch_append]

/-- C5: BCrypt-KDF `checkPassword` re-derives the key from the rounds, salt
and key length parsed out of the stored credential itself: a credential
produced under configuration `m1` verifies under any configuration `m2`
(in particular rounds 51 at encode time and 100 at check time). -/
theorem claim_C5 (kdf : List Nat → List Nat → Nat → Nat → List Nat)
    (hklen : ∀ pw s k r, (kdf pw s k r).length = k)
    (hkbytes : ∀ pw s k r, byteList (kdf pw s k r))
    (m1 m2 : BCRYPTKDFManager) (gensalt : List Nat) (hg : byteList gensalt)
    (p : Data) :
    bcryptkdfCheckPassword kdf m2
      (.bin (bcryptkdfEncodePassword kdf m1 gensalt p)) p = some true :=
  bcryptkdf_roundtrip kdf hklen hkbytes m1 m2 gensalt hg p

/-- Witness for C5: rounds 51 at encode time, manager reconfigured to
rounds 100 at check time. -/
theorem claim_C5_witness :
    bcryptkdfCheckPassword (fun _ _ k _ => List.replicate k 0) ⟨100, 32⟩
      (.bin (bcryptkdfEncodePassword (fun _ _ k _ => List.replicate k 0)
        ⟨51, 32⟩ [1, 2, 3] (.bin [97]))) (.bin [97]) = some true :=
  claim_C5 (fun _ _ k _ => List.replicate k 0) (fun _ _ _ _ => by simp)
    (fun _ _ _ _ b hb => by have := List.eq_of_mem_replicate hb; omega)
    ⟨51, 32⟩ ⟨100, 32⟩ [1, 2, 3] (by decide) (.bin [97])

theorem contains_eq_true_of_mem {a : Nat} {l : List Nat} (h : a ∈ l) :
    l.contains a = true := by
  induction l with
  | nil => cases h
  | cons x xs ih =>
      rcases List.mem_cons.mp h with rfl | h2
      · simp [List.contains_cons]
      · simp only [List.contains_cons, ih h2, Bool.or_true]

theorem not_mem_of_contains_eq_false {a : Nat} {l : List Nat}
    (h : l.contains a = false) : a ∉ l := by
  intro hm
  rw [contains_eq_true_of_mem hm] at h
  simp at h

/-- C6: the SSHA scheme accepts URL-safe-alphabet credentials: for any
underlying byte string, checking the URL-safe-alphabet credential gives
exactly the same result as checking the standard-alphabet credential built
from the same bytes. -/
theorem claim_C6 (sha1f : List Nat → List Nat) (bs : List Nat)
    (hbs : byteList bs) (p : Data) :
    sshaCheckPassword sha1f (.bin (sshaTag ++ b64EncodeWith b64AlphaUrl bs)) p =
    sshaCheckPassword sha1f (.bin (sshaTag ++ b64EncodeWith b64AlphaStd bs)) p := by
  have hc45s : (b64EncodeWith b64AlphaStd bs).contains 45 = false :=
    contains_eq_false (fun hm => (b64_std_avoid hbs _ hm).1 rfl)
  have hc95s : (b64EncodeWith b64AlphaStd bs).contains 95 = false :=
    contains_eq_false (fun hm => (b64_std_avoid hbs _ hm).2.1 rfl)
  have hdecs := b64_decode_encode b64AlphaStd b64InvStd b64InvStd_alpha
    (fun v hv => (b64AlphaStd_avoid v hv).1) bs hbs
  by_cases hc : ((b64EncodeWith b64AlphaUrl bs).contains 95 ||
      (b64EncodeWith b64AlphaUrl bs).contains 45) = true
  · have hdecu := b64_decode_encode b64AlphaUrl b64InvUrl b64InvUrl_alpha
      (fun v hv => (b64AlphaUrl_avoid v hv).1) bs hbs
    simp only [sshaCheckPassword, pyEncode_bin, sshaTag_drop, hc, if_true,
      hdecu, hc45s, hc95s, Bool.or_false, Bool.false_eq_true, if_false, hdecs]
  · have h95 : (b64EncodeWith b64AlphaUrl bs).contains 95 = false := by
      rcases Bool.or_eq_false_iff.mp (Bool.eq_false_iff.mpr hc) with ⟨h1, _⟩
      exact h1
    have h45 : (b64EncodeWith b64AlphaUrl bs).contains 45 = false := by
      rcases Bool.or_eq_false_iff.mp (Bool.eq_false_iff.mpr hc) with ⟨_, h2⟩
      exact h2
    have hswap : b64EncodeWith b64AlphaUrl bs = b64EncodeWith b64AlphaStd bs :=
      b64_url_eq_std bs hbs (fun c hcm =>
        ⟨fun e => not_mem_of_contains_eq_false h45 (e ▸ hcm),
         fun e => not_mem_of_contains_eq_false h95 (e ▸ hcm)⟩)
    rw [hswap]

/-- Witness for C6: a 21-byte underlying string of `0xff` bytes, whose
URL-safe encoding contains `_`. -/
theorem claim_C6_witness :
    sshaCheckPassword (fun _ => List.replicate 20 0)
      (.bin (sshaTag ++ b64EncodeWith b64AlphaUrl (List.replicate 21 255)))
      (.bin [97]) =
    sshaCheckPassword (fun _ => List.replicate 20 0)
      (.bin (sshaTag ++ b64EncodeWith b64AlphaStd (List.replicate 21 255)))
      (.bin [97]) :=
  claim_C6 (fun _ => List.replicate 20 0) (List.replicate 21 255)
    (by decide) (.bin [97])

/-- C7: the MySQL `encodePassword` equals the reference rolling-hash
definition `mysqlEncodeSpec` (accumulators seeded 1345345333 and 0x12345671,
UTF-8 bytes iterated with space and tab skipped, the recurrence taken
mod `2 ^ 32`, the accumulators masked to 31 bits and formatted as two
8-digit lowercase hex groups behind `{MYSQL}`); in particular
`encodePassword "ignored"` equals `encodePassword "\tign or ed"`. -/
theorem claim_C7 :
    (∀ password : List Nat,
      mysqlEncodePassword password = mysqlEncodeSpec password) ∧
    mysqlEncodePassword [105, 103, 110, 111, 114, 101, 100] =
      mysqlEncodePassword [9, 105, 103, 110, 32, 111, 114, 32, 101, 100] := by
  constructor
  · intro pw
    simp only [mysqlEncodePassword, mysqlEncodeSpec]
    obtain ⟨h1, h2, _⟩ := mysql_fold_congr (utf8Encode pw)
      (1345345333, 0x12345671, 7) (1345345333, 0x12345671, 7)
      (by norm_num) (by norm_num) (by norm_num)
    rw [h1, h2, and31_mod, and31_mod]
  · decide

theorem md5Tag_not_prefix_tagged (t X : List Nat) (h125 : 125 ∉ t)
    (hne : t ≠ [77, 68, 53]) :
    md5Tag.isPrefixOf (123 :: (t ++ 125 :: X)) = false := by
  match t with
  | [] => simp [md5Tag, List.isPrefixOf]
  | [a] => simp [md5Tag, List.isPrefixOf]
  | [a, b] => simp [md5Tag, List.isPrefixOf]
  | [a, b, c] =>
      by_cases ha : a = 77 <;> by_cases hb : b = 68 <;> by_cases hc2 : c = 53 <;>
        simp_all [md5Tag, List.isPrefixOf] <;> omega
  | a :: b :: c :: d :: rest =>
      have hd : (125 == d) = false := beq_eq_false_iff_ne.mpr
        (fun e => h125 (e ▸ (by simp : d ∈ a :: b :: c :: d :: rest)))
      simp [md5Tag, List.isPrefixOf, hd]

theorem md5Tag_not_prefix_untagged {X : List Nat} (hX : X ≠ [])
    (h123 : 123 ∉ X) : md5Tag.isPrefixOf X = false := by
  cases X with
  | nil => exact absurd rfl hX
  | cons c rest =>
      have hc : (123 == c) = false := beq_eq_false_iff_ne.mpr
        (fun e => h123 (by cases e; exact List.mem_cons_self _ _))
      simp [md5Tag, List.isPrefixOf, hc]

/-- C10: the MD5 scheme's `checkPassword` never verifies that the tag is
`{MD5}`: for every password `p`, a credential made of any bracketed tag
(`'{' ++ t ++ '}'` with `t` not containing `'}'`) followed by the correct
base64 MD5 digest checks true, and the bare 24-character digest itself also
checks true, while `match` is false for every such non-`{MD5}`-prefixed
value. -/
theorem claim_C10 (md5f : List Nat → List Nat)
    (hlen : ∀ x, (md5f x).length = 16) (hbytes : ∀ x, byteList (md5f x))
    (p : Data) (t : List Nat) (h125 : 125 ∉ t) (hne : t ≠ [77, 68, 53]) :
    md5CheckPassword md5f
      (.bin (123 :: (t ++ 125 ::
        b64EncodeWith b64AlphaStd (md5f (pyEncode p))))) p = some true ∧
    md5CheckPassword md5f
      (.bin (b64EncodeWith b64AlphaStd (md5f (pyEncode p)))) p = some true ∧
    prefixedMatch md5Tag
      (.bin (123 :: (t ++ 125 ::
        b64EncodeWith b64AlphaStd (md5f (pyEncode p))))) = false ∧
    prefixedMatch md5Tag
      (.bin (b64EncodeWith b64AlphaStd (md5f (pyEncode p)))) = false := by
  have hlenX : (b64EncodeWith b64AlphaStd (md5f (pyEncode p))).length = 24 := by
    rw [b64_encode_length, hlen]
  have h123X : 123 ∉ b64EncodeWith b64AlphaStd (md5f (pyEncode p)) :=
    fun hm => (b64_std_avoid (hbytes _) _ hm).2.2.2 rfl
  have h125X : 125 ∉ b64EncodeWith b64AlphaStd (md5f (pyEncode p)) :=
    fun hm => (b64_std_avoid (hbytes _) _ hm).2.2.1 rfl
  have hXne : b64EncodeWith b64AlphaStd (md5f (pyEncode p)) ≠ [] := by
    intro e
    rw [e] at hlenX
    simp at hlenX
  have hfind : bFind 125 (123 :: (t ++ 125 ::
      b64EncodeWith b64AlphaStd (md5f (pyEncode p)))) = some (t.length + 1) := by
    rw [bFind_cons_ne (by omega), bFind_self_after t _ h125]
    rfl
  have hdrop : List.drop (t.length + 1 + 1) (123 :: (t ++ 125 ::
      b64EncodeWith b64AlphaStd (md5f (pyEncode p)))) =
      b64EncodeWith b64AlphaStd (md5f (pyEncode p)) := by
    rw [List.drop_succ_cons]
    exact drop_len_succ t 125 _
  refine ⟨?_, ?_, ?_, ?_⟩
  · simp only [md5CheckPassword, md5EncodePassword, pyEncode_bin, hfind,
      hdrop, hlenX, md5Tag_drop]
    norm_num
  · simp only [md5CheckPassword, md5EncodePassword, pyEncode_bin,
      bFind_not_mem h125X, hlenX, md5Tag_drop]
    norm_num
  · simp only [prefixedMatch, pyEncode_bin]
    exact md5Tag_not_prefix_tagged t _ h125 hne
  · simp only [prefixedMatch, pyEncode_bin]
    exact md5Tag_not_prefix_untagged hXne h123X

/-- Witness for C10: the tag `{SHA}` (`t = "SHA"`) in front of a correct MD5
digest checks true under the MD5 scheme. -/
theorem claim_C10_witness :
    md5CheckPassword (fun _ => List.replicate 16 0)
      (.bin (123 :: ([83, 72, 65] ++ 125 ::
        b64EncodeWith b64AlphaStd
          ((fun _ => List.replicate 16 0) (pyEncode (.bin [97]))))))
      (.bin [97]) = some true :=
  (claim_C10 (fun _ => List.replicate 16 0) (fun _ => by simp)
    (fun _ b hb => by have := List.eq_of_mem_replicate hb; omega)
    (.bin [97]) [83, 72, 65] (by decide) (by decide)).1

/-- C2 counterexample: a `{MD5}` credential whose 32-character payload is not
hexadecimal makes `MD5PasswordManager.checkPassword` raise `binascii.Error`
(`none`), and a `{BCRYPTKDF}` credential that does not split into
`rounds$salt$key` makes `BCRYPTKDFPasswordManager.checkPassword` raise
`ValueError` (`none`) — not the false result the claim requires. -/
theorem claim_C2_counterexample :
    md5CheckPassword (fun _ => List.replicate 16 0)
      (.bin (md5Tag ++ List.replicate 32 120)) (.bin [112]) = none ∧
    bcryptkdfCheckPassword (fun _ _ k _ => List.replicate k 0) ⟨1024, 32⟩
      (.bin (bcryptkdfTag ++ [51, 51])) (.bin [112]) = none :=
  ⟨rfl, rfl⟩

/-- C2 amended: `checkPassword` returns false without raising for inputs the
scheme does not claim (BCRYPTKDF and BCRYPT without their tag, MySQL and
PlainText on any bytes input), but a recognized-tag-but-corrupt payload
propagates the parse error: `{MD5}` + non-hex raises in the MD5 scheme,
`{SMD5}` + malformed base64 raises in the SMD5 scheme, and a `{BCRYPTKDF}`
value that does not split into `rounds$salt$key` raises in the BCrypt-KDF
scheme. -/
theorem claim_C2_amended :
    (∀ (kdf : List Nat → List Nat → Nat → Nat → List Nat)
       (m : BCRYPTKDFManager) (h c : Data), bcryptkdfMatch h = false →
       bcryptkdfCheckPassword kdf m h c = some false) ∧
    (∀ (checkpw : List Nat → List Nat → Bool) (h c : Data),
       bcryptMatch h = false → bcryptCheckPassword checkpw h c = some false) ∧
    (∀ (e pw : List Nat), (mysqlCheckPassword (.bin e) pw).isSome = true) ∧
    (∀ (md5f : List Nat → List Nat) (p : Data),
       md5CheckPassword md5f (.bin (md5Tag ++ List.replicate 32 120)) p =
         none) ∧
    (∀ (md5f : List Nat → List Nat) (p : Data),
       smd5CheckPassword md5f (.bin (smd5Tag ++ [97, 98, 99])) p = none) ∧
    (∀ (kdf : List Nat → List Nat → Nat → Nat → List Nat)
       (m : BCRYPTKDFManager) (p : Data),
       bcryptkdfCheckPassword kdf m (.bin (bcryptkdfTag ++ [51, 51])) p =
         none) := by
  refine ⟨?_, ?_, fun _ _ => rfl, fun _ _ => rfl, fun _ _ => rfl,
    fun _ _ _ => rfl⟩
  · intro kdf m h c hm
    simp only [bcryptkdfCheckPassword,
      show bcryptkdfMatch (.bin (pyEncode h)) = false from hm, Bool.not_false,
      if_true]
  · intro checkpw h c hm
    simp only [bcryptCheckPassword, hm, Bool.not_false, if_true]

/-- Witness for the amended C2: a short untagged byte string yields
`some false` from the BCrypt-KDF checker. -/
theorem claim_C2_amended_witness :
    bcryptkdfCheckPassword (fun _ _ k _ => List.replicate k 0) ⟨1024, 32⟩
      (.bin [110, 111]) (.bin [112]) = some false :=
  claim_C2_amended.1 (fun _ _ k _ => List.replicate k 0) ⟨1024, 32⟩
    (.bin [110, 111]) (.bin [112]) (by decide)

/-- C4 counterexample: `PlainTextPasswordManager.checkPassword` does not
normalize its encoded argument: the text credential `"abc"` checks false
against password `"abc"` while the bytes form `b"abc"` checks true; and
`CryptPasswordManager.match` raises `TypeError` (`none`) on bytes input
instead of returning a boolean. -/
theorem claim_C4_counterexample :
    plainTextCheckPassword (.txt [97, 98, 99]) (.txt [97, 98, 99]) = false ∧
    plainTextCheckPassword (.bin [97, 98, 99]) (.txt [97, 98, 99]) = true ∧
    cryptMatch (.bin (cryptTag ++ [101, 114])) = none :=
  ⟨rfl, by decide, rfl⟩

/-- C4 amended: the `password.py` digest schemes (MD5, SMD5, SHA1, SSHA,
BCrypt-KDF) normalize text to UTF-8 bytes in every entry point, and yield
the same result as the pre-encoded bytes form; but
`PlainTextPasswordManager.checkPassword` compares the encoded argument
without normalizing (a text credential always yields false), and the Crypt
manager's `match`/`checkPassword` accept only text (bytes input raises
`TypeError`). -/
theorem claim_C4_amended (md5f sha1f : List Nat → List Nat)
    (kdf : List Nat → List Nat → Nat → Nat → List Nat)
    (cryptf : List Nat → List Nat → List Nat) (m : BCRYPTKDFManager) :
    (∀ (s : List Nat) (pw : Data),
       md5CheckPassword md5f (.txt s) pw =
         md5CheckPassword md5f (.bin (utf8Encode s)) pw) ∧
    (∀ (s : List Nat) (pw : Data),
       smd5CheckPassword md5f (.txt s) pw =
         smd5CheckPassword md5f (.bin (utf8Encode s)) pw) ∧
    (∀ (s : List Nat) (pw : Data),
       sha1CheckPassword sha1f (.txt s) pw =
         sha1CheckPassword sha1f (.bin (utf8Encode s)) pw) ∧
    (∀ (s : List Nat) (pw : Data),
       sshaCheckPassword sha1f (.txt s) pw =
         sshaCheckPassword sha1f (.bin (utf8Encode s)) pw) ∧
    (∀ (s : List Nat) (pw : Data),
       bcryptkdfCheckPassword kdf m (.txt s) pw =
         bcryptkdfCheckPassword kdf m (.bin (utf8Encode s)) pw) ∧
    (∀ (enc : Data) (s : List Nat),
       md5CheckPassword md5f enc (.txt s) =
         md5CheckPassword md5f enc (.bin (utf8Encode s))) ∧
    (∀ (tag s : List Nat),
       prefixedMatch tag (.txt s) = prefixedMatch tag (.bin (utf8Encode s))) ∧
    (∀ s : List Nat, sha1Match (.txt s) = sha1Match (.bin (utf8Encode s))) ∧
    (∀ s : List Nat, bcryptMatch (.txt s) = bcryptMatch (.bin (utf8Encode s))) ∧
    (∀ (s : List Nat) (o : Option Data),
       md5EncodePassword md5f (.txt s) o =
         md5EncodePassword md5f (.bin (utf8Encode s)) o) ∧
    (∀ (s : List Nat) (pw : Data),
       plainTextCheckPassword (.txt s) pw = false) ∧
    (∀ b : List Nat, cryptMatch (.bin b) = none) ∧
    (∀ (b : List Nat) (pwt : List Nat),
       cryptCheckPassword cryptf (.bin b) pwt = none) :=
  ⟨fun _ _ => rfl, fun _ _ => rfl, fun _ _ => rfl, fun _ _ => rfl,
   fun _ _ => rfl, fun _ _ => rfl, fun _ _ => rfl, fun _ => rfl,
   fun _ => rfl, fun _ _ => rfl, fun _ _ => rfl, fun _ => rfl,
   fun _ _ => rfl⟩

/-- C8 counterexample: the `managers` registry never contains a MySQL entry,
and its enumeration never equals the order the claim states (Plaintext, MD5,
SMD5, SHA1, SSHA, MySQL, Crypt?, BCrypt, BCrypt-KDF), under any availability
flags. -/
theorem claim_C8_counterexample :
    ("MySQL" ∉ (managers true).map Prod.fst) ∧
    ("MySQL" ∉ (managers false).map Prod.fst) ∧
    (managers true).map Prod.snd ≠ specClaimedRegistry true true ∧
    (managers true).map Prod.snd ≠ specClaimedRegistry false true ∧
    (managers false).map Prod.snd ≠ specClaimedRegistry true false ∧
    (managers false).map Prod.snd ≠ specClaimedRegistry false false := by
  decide

/-- C8 amended: the registry is the ordered list Plain Text, MD5, SMD5,
SHA1, SSHA, extended with BCRYPT and BCRYPTKDF exactly when the bcrypt
primitive is available; MySQL and Crypt are not part of it. -/
theorem claim_C8_amended :
    managers false = [("Plain Text", .plainText), ("MD5", .md5),
      ("SMD5", .smd5), ("SHA1", .sha1), ("SSHA", .ssha)] ∧
    managers true = [("Plain Text", .plainText), ("MD5", .md5),
      ("SMD5", .smd5), ("SHA1", .sha1), ("SSHA", .ssha),
      ("BCRYPT", .bcrypt), ("BCRYPTKDF", .bcryptkdf)] :=
  ⟨rfl, rfl⟩

/-- C9 counterexample: `encodePassword` of the BCrypt-KDF, PlainText and
MySQL managers takes no salt parameter, so the uniform
`encodePassword(p, salt)` call raises `TypeError` (`none`) instead of being
accepted as the claim states. -/
theorem claim_C9_counterexample :
    encodePasswordWithSaltArg (fun _ => List.replicate 16 0)
      (fun _ => List.replicate 20 0) (fun pw s => pw ++ s) (fun pw _ => pw)
      [1, 2] .bcryptkdf (.bin [97]) (.bin [98]) = none ∧
    encodePasswordWithSaltArg (fun _ => List.replicate 16 0)
      (fun _ => List.replicate 20 0) (fun pw s => pw ++ s) (fun pw _ => pw)
      [1, 2] .plainText (.bin [97]) (.bin [98]) = none ∧
    encodePasswordWithSaltArg (fun _ => List.replicate 16 0)
      (fun _ => List.replicate 20 0) (fun pw s => pw ++ s) (fun pw _ => pw)
      [1, 2] .mysql (.bin [97]) (.bin [98]) = none :=
  ⟨rfl, rfl, rfl⟩

/-- C9 amended: the MD5, SMD5, SHA1, SSHA, BCrypt and Crypt schemes accept
an optional salt argument; PlainText, MySQL and BCrypt-KDF take none
(passing one raises `TypeError`); for MD5 and SHA1 the accepted salt is a
no-op: `encodePassword p s` equals `encodePassword p`, the tag plus the
base64 digest of the UTF-8 bytes of `p`. -/
theorem claim_C9_amended (md5f sha1f : List Nat → List Nat)
    (hashpw cryptf : List Nat → List Nat → List Nat) (rand : List Nat) :
    (∀ (p : Data) (s : Option Data),
       md5EncodePassword md5f p s = md5EncodePassword md5f p none) ∧
    (∀ (p : Data) (s : Option Data),
       sha1EncodePassword sha1f p s = sha1EncodePassword sha1f p none) ∧
    (∀ (p : Data) (s : Option Data), md5EncodePassword md5f p s =
       md5Tag ++ b64EncodeWith b64AlphaStd (md5f (pyEncode p))) ∧
    (∀ (p : Data) (s : Option Data), sha1EncodePassword sha1f p s =
       shaTag ++ b64EncodeWith b64AlphaStd (sha1f (pyEncode p))) ∧
    (∀ (p s : Data), encodePasswordWithSaltArg md5f sha1f hashpw cryptf rand
       .plainText p s = none) ∧
    (∀ (p s : Data), encodePasswordWithSaltArg md5f sha1f hashpw cryptf rand
       .mysql p s = none) ∧
    (∀ (p s : Data), encodePasswordWithSaltArg md5f sha1f hashpw cryptf rand
       .bcryptkdf p s = none) ∧
    (∀ (p s : Data), encodePasswordWithSaltArg md5f sha1f hashpw cryptf rand
       .md5 p s = some (md5EncodePassword md5f p (some s))) ∧
    (∀ (p s : Data), encodePasswordWithSaltArg md5f sha1f hashpw cryptf rand
       .smd5 p s = some (smd5EncodePassword md5f rand p (some s))) ∧
    (∀ (p s : Data), encodePasswordWithSaltArg md5f sha1f hashpw cryptf rand
       .sha1 p s = some (sha1EncodePassword sha1f p (some s))) ∧
    (∀ (p s : Data), encodePasswordWithSaltArg md5f sha1f hashpw cryptf rand
       .ssha p s = some (sshaEncodePassword sha1f rand p (some s))) ∧
    (∀ (p s : Data), encodePasswordWithSaltArg md5f sha1f hashpw cryptf rand
       .bcrypt p s = some (bcryptEncodePassword hashpw rand p (some s))) :=
  ⟨fun _ _ => rfl, fun _ _ => rfl, fun _ _ => rfl, fun _ _ => rfl,
   fun _ _ => rfl, fun _ _ => rfl, fun _ _ => rfl, fun _ _ => rfl,
   fun _ _ => rfl, fun _ _ => rfl, fun _ _ => rfl, fun _ _ => rfl⟩
